import Mathlib

/-!
Verification of the DNS forwarder's wire codec and cache sweeper
(src/main.rs) against its natural-language specification.

Modelling conventions:
  - Rust `u8`/`u16`/`u32` values are `Nat`s; every `as u8` / `as u16` cast in
    the source appears as an explicit `% 256` / `% 65536` (or is guarded by a
    range hypothesis in the theorems).
  - Rust `String`s are modelled as the list of their UTF-8 bytes (`List Nat`).
    `push(b as char)` appends the UTF-8 encoding of code point `b`
    (`push_char`), `as_bytes` is the identity, `len()` is `List.length`,
    `split('.')` is `split_labels`, and `pop()` (which here always removes a
    one-byte character, `'.'`, or does nothing on an empty string) is
    `List.dropLast`.
  - Buffer indexing `buf[i]` panics in Rust when out of bounds; every such
    access is modelled by a bounds check that fails the whole operation
    (`Option.none`, `QRes.short`, or `NameResult.oob`), with the read itself
    written `buf.getD i 0`.
  - The `while` loops of `parse` and `parse_name` are written with an explicit
    fuel argument so that all definitions are structurally recursive and
    executable.  For `parse`'s question loop the fuel is provably sufficient
    (`readQName_no_spin`); `parse_name` can genuinely diverge on pointer
    cycles, which is what the fuel-exhaustion result `NameResult.spin` tracks.
-/

namespace Rdns

/-- Model of `struct DnsRequest` (field for field; strings as UTF-8 byte
lists). -/
@[ext]
structure DnsRequest where
  id : Nat
  qr : Nat
  opcode : Nat
  aa : Nat
  tc : Nat
  rd : Nat
  ra : Nat
  z : Nat
  rcode : Nat
  qdcount : Nat
  ancount : Nat
  nscount : Nat
  arcount : Nat
  qname : List Nat
  qtype : Nat
  qclass : Nat
  response_data : List Nat
  deriving Repr, DecidableEq

/-- Model of `struct DnsResourceRecord`. -/
structure DnsResourceRecord where
  name : List Nat
  rr_type : Nat
  rr_class : Nat
  ttl : Nat
  rdlength : Nat
  rdata : List Nat
  deriving Repr, DecidableEq

/-- Model of `struct DnsResponseData`. -/
structure DnsResponseData where
  id : Nat
  flags : Nat
  questions : Nat
  answers : Nat
  authority_rrs : Nat
  additional_rrs : Nat
  query : List Nat × Nat × Nat
  answer_records : List DnsResourceRecord
  authority_records : List DnsResourceRecord
  additional_records : List DnsResourceRecord
  deriving Repr, DecidableEq

/-- Model of `DnsRequest::new()`. -/
def DnsRequest.new : DnsRequest where
  id := 0
  qr := 0
  opcode := 0
  aa := 0
  tc := 0
  rd := 0
  ra := 0
  z := 0
  rcode := 0
  qdcount := 0
  ancount := 0
  nscount := 0
  arcount := 0
  qname := []
  qtype := 0
  qclass := 0
  response_data := []

/-- Rust slice `buf[a..b]` (used only after its bounds have been checked). -/
def slice (l : List Nat) (a b : Nat) : List Nat :=
  (l.drop a).take (b - a)

/-- UTF-8 bytes appended by Rust `String::push(b as char)` for a byte value
`b < 256`: one byte for ASCII, two bytes for `0x80..0xFF`. -/
def push_char (b : Nat) : List Nat :=
  if b < 128 then [b] else [192 + b / 64, 128 + b % 64]

/-- Model of Rust `str::split('.')` on a UTF-8 byte list (the byte 46 never
occurs inside a multi-byte UTF-8 sequence, so byte-level splitting agrees with
character-level splitting).  `split_labels [] = [[]]`, matching
`"".split('.')`. -/
def split_labels : List Nat → List (List Nat)
  | [] => [[]]
  | b :: rest =>
    match split_labels rest with
    | [] => [[]]
    | p :: ps => if b = 46 then [] :: p :: ps else (b :: p) :: ps

/-- Dot-joining, the inverse of `split_labels`. -/
def joinDots : List (List Nat) → List Nat
  | [] => []
  | [p] => p
  | p :: ps => p ++ 46 :: joinDots ps

/-- The first flags byte `(qr << 7) | (opcode << 3) | (aa << 2) | (tc << 1) |
rd`, an expression the source uses both in `binarize` and in
`parse_response_data`.  The shifts are `u8` shifts, hence the `% 256`. -/
def flags_byte (qr opcode aa tc rd : Nat) : Nat :=
  ((qr <<< 7) % 256) ||| ((opcode <<< 3) % 256) ||| ((aa <<< 2) % 256) |||
    ((tc <<< 1) % 256) ||| rd

/-- Result of the question-name loop of `DnsRequest::parse`:
`ok acc i` is normal loop exit with accumulated name text `acc` and cursor
`i`; `short` is the "Buffer too short to contain qname part" panic; `spin`
is fuel exhaustion (provably unreachable for the fuel `parse` supplies, see
`readQName_no_spin`). -/
inductive QRes where
  | ok (acc : List Nat) (i : Nat)
  | short
  | spin
  deriving Repr, DecidableEq

/-- The question-name loop of `DnsRequest::parse` (source lines 93-106):
`while i < buf.len() && buf[i] != 0` reads a length byte, checks
`i + 1 + len <= buf.len()`, appends the label bytes (each pushed as a char)
and a dot. -/
def readQName (buf : List Nat) : Nat → Nat → List Nat → QRes
  | 0, i, acc =>
    if i < buf.length ∧ buf.getD i 0 ≠ 0 then QRes.spin else QRes.ok acc i
  | fuel + 1, i, acc =>
    if i < buf.length ∧ buf.getD i 0 ≠ 0 then
      if buf.length < i + 1 + buf.getD i 0 then QRes.short
      else
        readQName buf fuel (i + 1 + buf.getD i 0)
          (acc ++ (slice buf (i + 1) (i + 1 + buf.getD i 0)).flatMap push_char
            ++ [46])
    else QRes.ok acc i

/-- Header-field extraction of `DnsRequest::parse` (source lines 76-91): the
twelve fixed header bytes, decoded with the source's masks and shifts.  The
question fields keep their `DnsRequest::new()` defaults; `parse` fills them
next. -/
def parse_header (buf : List Nat) : Option DnsRequest :=
  if buf.length < 12 then none
  else some { DnsRequest.new with
    id := (buf.getD 0 0) <<< 8 ||| buf.getD 1 0
    qr := (buf.getD 2 0 &&& 128) >>> 7
    opcode := (buf.getD 2 0 &&& 120) >>> 3
    aa := (buf.getD 2 0 &&& 4) >>> 2
    tc := (buf.getD 2 0 &&& 2) >>> 1
    rd := buf.getD 2 0 &&& 1
    ra := (buf.getD 3 0 &&& 128) >>> 7
    z := (buf.getD 3 0 &&& 112) >>> 4
    rcode := buf.getD 3 0 &&& 15
    qdcount := (buf.getD 4 0) <<< 8 ||| buf.getD 5 0
    ancount := (buf.getD 6 0) <<< 8 ||| buf.getD 7 0
    nscount := (buf.getD 8 0) <<< 8 ||| buf.getD 9 0
    arcount := (buf.getD 10 0) <<< 8 ||| buf.getD 11 0 }

/-- `DnsRequest::parse` (source lines 75-116).  Header, then the question
name starting at byte 12 (`readQName`, whose fuel `buf.length` is provably
ample), the trailing-dot trim (`dropLast`), the `i += 1` step over the
terminator, and the `i + 4 > buf.len()` check before qtype/qclass.  Panics
are `none`. -/
def parse (buf : List Nat) : Option DnsRequest :=
  match parse_header buf with
  | none => none
  | some r =>
    match readQName buf buf.length 12 [] with
    | QRes.ok acc i0 =>
      if i0 + 1 + 4 > buf.length then none
      else some { r with
        qname := acc.dropLast
        qtype := (buf.getD (i0 + 1) 0) <<< 8 ||| buf.getD (i0 + 2) 0
        qclass := (buf.getD (i0 + 3) 0) <<< 8 ||| buf.getD (i0 + 4) 0 }
    | _ => none

/-- `DnsRequest::parse_response` (source lines 118-121): parse, then retain
the whole raw buffer. -/
def parse_response (buf : List Nat) : Option DnsRequest :=
  match parse buf with
  | none => none
  | some r => some { r with response_data := buf }

/-- The wire form of a question name: each `split('.')` part as
`part.len() as u8` followed by the part's bytes (source lines 145-150). -/
def encode_qname (q : List Nat) : List Nat :=
  (split_labels q).flatMap fun p => p.length % 256 :: p

/-- `DnsRequest::binarize` (source lines 124-157).  The raw-replay branch
overwrites bytes 0 and 1 of the retained buffer (Rust indexing panics —
`none` — when the buffer has exactly one byte); the fresh-encode branch
builds header + question field by field. -/
def binarize (m : DnsRequest) : Option (List Nat) :=
  if m.response_data ≠ [] then
    if 2 ≤ m.response_data.length then
      some ((m.response_data.set 0 ((m.id >>> 8) % 256)).set 1 (m.id % 256))
    else none
  else
    some ([(m.id >>> 8) % 256, m.id % 256,
           flags_byte m.qr m.opcode m.aa m.tc m.rd,
           ((m.ra <<< 7) % 256) ||| ((m.z <<< 4) % 256) ||| m.rcode,
           (m.qdcount >>> 8) % 256, m.qdcount % 256,
           (m.ancount >>> 8) % 256, m.ancount % 256,
           (m.nscount >>> 8) % 256, m.nscount % 256,
           (m.arcount >>> 8) % 256, m.arcount % 256]
          ++ encode_qname m.qname ++ [0]
          ++ [(m.qtype >>> 8) % 256, m.qtype % 256,
              (m.qclass >>> 8) % 256, m.qclass % 256])

/-- Result of `DnsRequest::parse_name`: `ok name off` is normal completion
with the decoded text and the final cursor; `oob` is an out-of-bounds panic;
`spin` is fuel exhaustion, the marker of the source loop's divergence. -/
inductive NameResult where
  | ok (name : List Nat) (off : Nat)
  | oob
  | spin
  deriving Repr, DecidableEq

/-- The `while buf[*offset] != 0` loop of `DnsRequest::parse_name` (source
lines 185-199), carrying the source's `jumped` flag and `jump_offset`
variable.  A length byte with top bits `11` jumps to the 14-bit offset,
recording `off + 2` only on the first jump; a plain label appends its bytes
(`from_utf8_lossy`, which is the identity on the raw bytes for valid UTF-8 —
the claims never inspect this text) and a dot.  On exit the cursor is
`jump_offset` when a jump happened, else one past the terminator. -/
def parse_name_loop (buf : List Nat) :
    Nat → Nat → Bool → Nat → List Nat → NameResult
  | 0, off, jumped, jmp, acc =>
    if off < buf.length then
      if buf.getD off 0 = 0 then
        NameResult.ok acc (if jumped then jmp else off + 1)
      else NameResult.spin
    else NameResult.oob
  | fuel + 1, off, jumped, jmp, acc =>
    if off < buf.length then
      if buf.getD off 0 = 0 then
        NameResult.ok acc (if jumped then jmp else off + 1)
      else if buf.getD off 0 &&& 192 = 192 then
        if off + 1 < buf.length then
          parse_name_loop buf fuel
            ((buf.getD off 0 &&& 63) <<< 8 ||| buf.getD (off + 1) 0) true
            (if jumped then jmp else off + 2) acc
        else NameResult.oob
      else if buf.length < off + 1 + buf.getD off 0 then NameResult.oob
      else
        parse_name_loop buf fuel (off + 1 + buf.getD off 0) jumped jmp
          (acc ++ slice buf (off + 1) (off + 1 + buf.getD off 0) ++ [46])
    else NameResult.oob

/-- `DnsRequest::parse_name` (source lines 180-207): run the loop from
`jumped = false`, `jump_offset = 0`, then trim the trailing dot. -/
def parse_name (buf : List Nat) (fuel off : Nat) : NameResult :=
  match parse_name_loop buf fuel off false 0 [] with
  | NameResult.ok acc fin => NameResult.ok acc.dropLast fin
  | r => r

/-- `DnsRequest::parse_resource_record` (source lines 159-178): compressed
name, ten fixed bytes (type, class, ttl, rdlength), then exactly `rdlength`
rdata bytes; returns the record and the advanced cursor. -/
def parse_resource_record (buf : List Nat) (fuel off : Nat) :
    Option (DnsResourceRecord × Nat) :=
  match parse_name buf fuel off with
  | NameResult.ok name noff =>
    if noff + 10 ≤ buf.length then
      let rdlength := (buf.getD (noff + 8) 0) <<< 8 ||| buf.getD (noff + 9) 0
      if noff + 10 + rdlength ≤ buf.length then
        some ({ name := name
                rr_type := (buf.getD noff 0) <<< 8 ||| buf.getD (noff + 1) 0
                rr_class :=
                  (buf.getD (noff + 2) 0) <<< 8 ||| buf.getD (noff + 3) 0
                ttl := (buf.getD (noff + 4) 0) <<< 24 |||
                  (buf.getD (noff + 5) 0) <<< 16 |||
                  (buf.getD (noff + 6) 0) <<< 8 ||| buf.getD (noff + 7) 0
                rdlength := rdlength
                rdata := slice buf (noff + 10) (noff + 10 + rdlength) },
              noff + 10 + rdlength)
      else none
    else none
  | _ => none

/-- The `for _ in 0..count` record loops of `parse_response_data`: consume
`n` resource records in order, threading the cursor. -/
def parseRecords (buf : List Nat) (fuel : Nat) :
    Nat → Nat → Option (List DnsResourceRecord × Nat)
  | 0, off => some ([], off)
  | n + 1, off =>
    match parse_resource_record buf fuel off with
    | some (rr, off1) =>
      match parseRecords buf fuel n off1 with
      | some (rs, fin) => some (rr :: rs, fin)
      | none => none
    | none => none

/-- `DnsRequest::parse_response_data` (source lines 209-245): skip the
question section (`12 + qname.len() + 2 + 4`), then read `ancount`,
`nscount`, `arcount` records from the retained raw bytes. -/
def parse_response_data (req : DnsRequest) (fuel : Nat) :
    Option DnsResponseData :=
  match parseRecords req.response_data fuel req.ancount
      (12 + req.qname.length + 2 + 4) with
  | some (ans, o1) =>
    match parseRecords req.response_data fuel req.nscount o1 with
    | some (auth, o2) =>
      match parseRecords req.response_data fuel req.arcount o2 with
      | some (add, _) =>
        some { id := req.id
               flags := flags_byte req.qr req.opcode req.aa req.tc req.rd
               questions := req.qdcount
               answers := req.ancount
               authority_rrs := req.nscount
               additional_rrs := req.arcount
               query := (req.qname, req.qtype, req.qclass)
               answer_records := ans
               authority_records := auth
               additional_records := add }
      | none => none
    | none => none
  | none => none

/-- `DnsRequest::binarize_record` (source lines 294-322): uncompressed name,
type, class, ttl, rdlength, raw rdata. -/
def binarize_record (record : DnsResourceRecord) : List Nat :=
  encode_qname record.name ++ [0]
    ++ [(record.rr_type >>> 8) % 256, record.rr_type % 256,
        (record.rr_class >>> 8) % 256, record.rr_class % 256,
        (record.ttl >>> 24) % 256, (record.ttl >>> 16) % 256,
        (record.ttl >>> 8) % 256, record.ttl % 256,
        (record.rdlength >>> 8) % 256, record.rdlength % 256]
    ++ record.rdata

/-- `DnsRequest::binarize_response_data` (source lines 247-292): header with
a literal `0` pushed as byte 3 ("Placeholder for the second byte of flags and
rcode"), the question, then the three record sections.  The source stores the
result into `self.response_data`; the model returns it. -/
def binarize_response_data (body : DnsResponseData) : List Nat :=
  (body.id >>> 8) % 256 :: body.id % 256 :: body.flags :: 0 ::
    (body.questions >>> 8) % 256 :: body.questions % 256 ::
    (body.answers >>> 8) % 256 :: body.answers % 256 ::
    (body.authority_rrs >>> 8) % 256 :: body.authority_rrs % 256 ::
    (body.additional_rrs >>> 8) % 256 :: body.additional_rrs % 256 ::
    (encode_qname body.query.1 ++ [0]
      ++ [(body.query.2.1 >>> 8) % 256, body.query.2.1 % 256,
          (body.query.2.2 >>> 8) % 256, body.query.2.2 % 256]
      ++ body.answer_records.flatMap binarize_record
      ++ body.authority_records.flatMap binarize_record
      ++ body.additional_records.flatMap binarize_record)

/-- The per-entry body of `remove_expired_cache` (source lines 340-351):
decode the cached raw bytes (`parse_response` then `parse_response_data`) and
test whether any answer record's ttl field equals the literal 10.  A decode
panic aborts the sweeper task, modelled as `none`. -/
def sweep_entry_expired (raw : List Nat) (fuel : Nat) : Option Bool :=
  match parse_response raw with
  | none => none
  | some req =>
    match parse_response_data req fuel with
    | none => none
    | some d => some (d.answer_records.any fun r => r.ttl == 10)

/-- One cycle of `remove_expired_cache` (source lines 330-354) over the
cache's entries: every entry whose decoded response has an answer record with
ttl 10 is removed, all others are kept. -/
def remove_expired_cache (fuel : Nat) :
    List (List Nat × List Nat) → Option (List (List Nat × List Nat))
  | [] => some []
  | (k, v) :: rest =>
    match sweep_entry_expired v fuel with
    | none => none
    | some e =>
      match remove_expired_cache fuel rest with
      | none => none
      | some r => some (if e then r else (k, v) :: r)

/-! ### Concrete values used by the witnesses -/

/-- A 12-byte header used to exercise `parse_header`. -/
def bufC4 : List Nat := [18, 52, 133, 147, 0, 1, 0, 2, 0, 3, 0, 4]

/-- The decoded form of `bufC4`. -/
def reqC4 : DnsRequest :=
  { DnsRequest.new with
    id := 4660, qr := 1, opcode := 0, aa := 1, tc := 0,
    rd := 1, ra := 1, z := 1, rcode := 3, qdcount := 1, ancount := 2,
    nscount := 3, arcount := 4 }

/-- Raw bytes of a minimal cached response: id 42, flags `0x80 0x00`, one
question `ab`/A/IN, one answer record with root name, type A, class IN,
ttl 10, empty rdata. -/
def rawTtl10 : List Nat :=
  [0, 42, 128, 0, 0, 1, 0, 1, 0, 0, 0, 0, 2, 97, 98, 0, 0, 1, 0, 1,
   0, 0, 1, 0, 1, 0, 0, 0, 10, 0, 0]

/-- The retained-response message holding `rawTtl10` (as produced by
`parse_response rawTtl10`). -/
def reqTtl10 : DnsRequest :=
  { DnsRequest.new with
    id := 42, qr := 1, qdcount := 1, ancount := 1,
    qname := [97, 98], qtype := 1, qclass := 1, response_data := rawTtl10 }

/-- The decoded record sections of `rawTtl10`. -/
def dataTtl10 : DnsResponseData :=
  { id := 42, flags := 128, questions := 1, answers := 1, authority_rrs := 0,
    additional_rrs := 0, query := ([97, 98], 1, 1),
    answer_records :=
      [{ name := [], rr_type := 1, rr_class := 1, ttl := 10, rdlength := 0,
         rdata := [] }],
    authority_records := [], additional_records := [] }

/-- A well-formed query used to exercise the encode/decode round trip. -/
def reqC6 : DnsRequest :=
  { DnsRequest.new with
    id := 4660, qr := 1, rd := 1, qdcount := 1,
    qname := [97, 46, 98], qtype := 1, qclass := 1 }

/-! ### Arithmetic bridge lemmas -/

/-- Big-endian 16-bit composition: the source's `(hi << 8) | lo` equals
`256 * hi + lo` whenever `lo` is a byte. -/
theorem shiftLeft_eight_or (a b : Nat) (hb : b < 256) :
    (a <<< 8) ||| b = 256 * a + b := by
  apply Nat.eq_of_testBit_eq
  intro i
  rw [Nat.testBit_lor, Nat.testBit_shiftLeft,
    show 256 * a + b = 2 ^ 8 * a + b by norm_num,
    Nat.testBit_mul_pow_two_add a (show b < 2 ^ 8 by omega) i]
  by_cases hi : i < 8
  · have hni : ¬(i ≥ 8) := by omega
    simp [hi, hni]
  · have h8 : i ≥ 8 := by omega
    have hpow : 256 ≤ 2 ^ i := by
      calc (256 : Nat) = 2 ^ 8 := by norm_num
        _ ≤ 2 ^ i := Nat.pow_le_pow_right (by norm_num) h8
    have hbi : b.testBit i = false :=
      Nat.testBit_lt_two_pow (lt_of_lt_of_le hb hpow)
    simp [hi, h8, hbi]

set_option maxRecDepth 4096

/-- The header bit-masks of `parse`, rephrased as division and remainder, for
every byte value. -/
theorem header_masks :
    ∀ b < 256, (b &&& 128) >>> 7 = b / 128 % 2 ∧
      (b &&& 120) >>> 3 = b / 8 % 16 ∧ (b &&& 4) >>> 2 = b / 4 % 2 ∧
      (b &&& 2) >>> 1 = b / 2 % 2 ∧ b &&& 1 = b % 2 ∧
      (b &&& 112) >>> 4 = b / 16 % 8 ∧ b &&& 15 = b % 16 := by decide

/-- The first flags byte built by `binarize` is the base-2 packing of its
in-range fields. -/
theorem flags_byte_eq :
    ∀ qr < 2, ∀ op < 16, ∀ aa < 2, ∀ tc < 2, ∀ rd < 2,
      flags_byte qr op aa tc rd = 128 * qr + 8 * op + 4 * aa + 2 * tc + rd := by
  decide

/-- The second flags byte built by `binarize` is the base-2 packing of its
in-range fields. -/
theorem flags2_byte_eq :
    ∀ ra < 2, ∀ z < 8, ∀ rc < 16,
      ((ra <<< 7) % 256) ||| ((z <<< 4) % 256) ||| rc =
        128 * ra + 16 * z + rc := by
  decide

/-! ### Question-name loop: fuel hygiene -/

/-- The fuel `parse` hands to `readQName` can never run out: the loop's
cursor strictly grows, so `buf.length - i` bounds the iteration count. -/
theorem readQName_no_spin (buf : List Nat) :
    ∀ (fuel i : Nat) (acc : List Nat), buf.length ≤ i + fuel →
      readQName buf fuel i acc ≠ QRes.spin := by
  intro fuel
  induction fuel with
  | zero =>
    intro i acc hle
    simp only [readQName]
    intro h
    split at h
    · omega
    · exact QRes.noConfusion h
  | succ fuel ih =>
    intro i acc hle
    simp only [readQName]
    split
    · split
      · exact fun h => QRes.noConfusion h
      · exact ih _ _ (by omega)
    · exact fun h => QRes.noConfusion h

/-! ### C1: compression-pointer continuation -/

/-- Once the loop of `parse_name` has jumped (`jumped = true` with recorded
continuation `jmp`), every later pointer leaves `jmp` unchanged and a normal
exit resumes exactly at `jmp`. -/
theorem parse_name_loop_jumped_fin (buf : List Nat) :
    ∀ (fuel off jmp : Nat) (acc name : List Nat) (fin : Nat),
      parse_name_loop buf fuel off true jmp acc = NameResult.ok name fin →
      fin = jmp := by
  intro fuel
  induction fuel with
  | zero =>
    intro off jmp acc name fin h
    simp only [parse_name_loop, if_true] at h
    split at h
    · split at h
      · exact (NameResult.ok.injEq _ _ _ _).mp h |>.2.symm
      · exact NameResult.noConfusion h
    · exact NameResult.noConfusion h
  | succ fuel ih =>
    intro off jmp acc name fin h
    simp only [parse_name_loop, if_true] at h
    split at h
    · split at h
      · exact (NameResult.ok.injEq _ _ _ _).mp h |>.2.symm
      · split at h
        · split at h
          · exact ih _ _ _ _ _ h
          · exact NameResult.noConfusion h
        · split at h
          · exact NameResult.noConfusion h
          · exact ih _ _ _ _ _ h
    · exact NameResult.noConfusion h

/-- C1: when `parse_name` meets a compression pointer (length byte with top
two bits `11`) before having jumped, it records the position two bytes past
that first pointer and, on completing the jumped-to name, resumes the cursor
exactly there; once jumped, later (nested) pointers never update the recorded
continuation point. -/
theorem parse_name_first_pointer_resume :
    (∀ (buf : List Nat) (fuel off jmp : Nat) (acc name : List Nat)
       (fin : Nat),
       parse_name_loop buf fuel off true jmp acc = NameResult.ok name fin →
       fin = jmp) ∧
    (∀ (buf : List Nat) (fuel off jmp : Nat) (acc name : List Nat)
       (fin : Nat), buf.getD off 0 &&& 192 = 192 →
       parse_name_loop buf fuel off false jmp acc = NameResult.ok name fin →
       fin = off + 2) := by
  constructor
  · exact fun buf => parse_name_loop_jumped_fin buf
  · intro buf fuel off jmp acc name fin hpt h
    have hnz : buf.getD off 0 ≠ 0 := by
      intro h0
      rw [h0] at hpt
      simp at hpt
    cases fuel with
    | zero =>
      simp only [parse_name_loop] at h
      by_cases hoff : off < buf.length
      · rw [if_pos hoff, if_neg hnz] at h
        exact NameResult.noConfusion h
      · rw [if_neg hoff] at h
        exact NameResult.noConfusion h
    | succ fuel =>
      simp only [parse_name_loop] at h
      by_cases hoff : off < buf.length
      · rw [if_pos hoff, if_neg hnz, if_pos hpt] at h
        by_cases hoff1 : off + 1 < buf.length
        · rw [if_pos hoff1, if_neg Bool.false_ne_true] at h
          exact parse_name_loop_jumped_fin buf _ _ _ _ _ _ h
        · rw [if_neg hoff1] at h
          exact NameResult.noConfusion h
      · rw [if_neg hoff] at h
        exact NameResult.noConfusion h

/-- Concrete run of C1: in `[0, 192, 0]` a pointer at offset 1 jumps to the
empty name at offset 0, and the caller's cursor resumes at `1 + 2 = 3`. -/
theorem parse_name_first_pointer_resume_witness :
    parse_name_loop [0, 192, 0] 1 1 false 7 [] = NameResult.ok [] 3 ∧
      (3 : Nat) = 1 + 2 :=
  ⟨by decide,
   parse_name_first_pointer_resume.2 [0, 192, 0] 1 1 7 [] [] 3 (by decide)
     (by decide)⟩

/-! ### C8: pointer cycles diverge -/

/-- The loop of `parse_name` on the two-byte buffer `[192, 0]` — a pointer
whose 14-bit target is its own offset 0 — exhausts any amount of fuel. -/
theorem parse_name_loop_cycle_spin :
    ∀ (fuel : Nat) (jumped : Bool) (jmp : Nat) (acc : List Nat),
      parse_name_loop [192, 0] fuel 0 jumped jmp acc = NameResult.spin := by
  intro fuel
  induction fuel with
  | zero =>
    intro jumped jmp acc
    simp [parse_name_loop]
  | succ fuel ih =>
    intro jumped jmp acc
    show parse_name_loop [192, 0] (fuel + 1) 0 jumped jmp acc =
      NameResult.spin
    simp only [parse_name_loop]
    norm_num
    exact ih true _ acc

/-- C8: `parse_name` places no bound on consecutive compression jumps: on the
buffer `[192, 0]`, whose pointer targets itself, the loop never terminates
(every fuel amount is exhausted). -/
theorem parse_name_cycle_diverges :
    ∀ fuel : Nat, parse_name [192, 0] fuel 0 = NameResult.spin := by
  intro fuel
  simp only [parse_name, parse_name_loop_cycle_spin]

/-! ### C9: structured encoder discards the second flags byte -/

/-- C9: `binarize_response_data` writes the literal byte 0 at header position
3 for every `DnsResponseData`, so ra, z and rcode are discarded; byte 2 is
the message's single stored flags byte. -/
theorem binarize_response_data_byte3_zero (body : DnsResponseData) :
    (binarize_response_data body).getD 3 0 = 0 ∧
      (binarize_response_data body).getD 2 0 = body.flags := by
  constructor <;>
    simp [binarize_response_data, List.getD_cons_succ, List.getD_cons_zero]

/-! ### C2: raw-replay encoding is an id substitution -/

/-- The raw branch of `binarize` on a retained buffer of at least two bytes:
the output is the buffer with bytes 0 and 1 replaced by the id's big-endian
halves and everything from position 2 unchanged. -/
theorem binarize_raw_spec (m : DnsRequest) (h1 : m.response_data ≠ [])
    (h2 : 2 ≤ m.response_data.length) :
    ∃ out, binarize m = some out ∧ out.length = m.response_data.length ∧
      out.getD 0 0 = (m.id >>> 8) % 256 ∧ out.getD 1 0 = m.id % 256 ∧
      ∀ i, 2 ≤ i → out.getD i 0 = m.response_data.getD i 0 := by
  refine ⟨(m.response_data.set 0 ((m.id >>> 8) % 256)).set 1 (m.id % 256),
    ?_, ?_, ?_, ?_, ?_⟩
  · rw [binarize, if_pos h1, if_pos h2]
  · simp [List.length_set]
  · rw [List.getD_eq_getElem?_getD, List.getElem?_set_ne (by omega),
      List.getElem?_set]
    simp [show 0 < m.response_data.length by omega]
  · rw [List.getD_eq_getElem?_getD, List.getElem?_set]
    simp [show 1 < m.response_data.length by omega]
  · intro i hi
    rw [List.getD_eq_getElem?_getD, List.getElem?_set_ne (by omega),
      List.getElem?_set_ne (by omega), List.getD_eq_getElem?_getD]

/-- Successful `parse_response` retains the whole input buffer, which is at
least the 12 header bytes long. -/
theorem parse_response_retains (stored : List Nat) (req : DnsRequest)
    (h : parse_response stored = some req) :
    req.response_data = stored ∧ 12 ≤ stored.length := by
  constructor
  · unfold parse_response at h
    split at h
    · exact Option.noConfusion h
    · cases h
      rfl
  · unfold parse_response at h
    split at h
    · exact Option.noConfusion h
    · rename_i r hr
      unfold parse at hr
      cases hh : parse_header stored with
      | none => rw [hh] at hr; exact Option.noConfusion hr
      | some r0 =>
        unfold parse_header at hh
        split at hh
        · exact Option.noConfusion hh
        · omega

/-- C2 (amended to retained buffers of at least two bytes): encoding a
message that carries raw response bytes replaces only the first two bytes
with the id, keeping every byte from position 2 identical; in particular the
cache-hit path (`parse_response` a stored response, overwrite the id with the
incoming query id `y`, `binarize`) yields the stored bytes with only the id
substituted. -/
theorem binarize_raw_id_substitution :
    (∀ m : DnsRequest, m.response_data ≠ [] → 2 ≤ m.response_data.length →
      ∃ out, binarize m = some out ∧ out.length = m.response_data.length ∧
        out.getD 0 0 = (m.id >>> 8) % 256 ∧ out.getD 1 0 = m.id % 256 ∧
        ∀ i, 2 ≤ i → out.getD i 0 = m.response_data.getD i 0) ∧
    (∀ (stored : List Nat) (y : Nat) (req : DnsRequest),
      parse_response stored = some req →
      ∃ out, binarize { req with id := y } = some out ∧
        out.length = stored.length ∧
        out.getD 0 0 = (y >>> 8) % 256 ∧ out.getD 1 0 = y % 256 ∧
        ∀ i, 2 ≤ i → out.getD i 0 = stored.getD i 0) := by
  refine ⟨binarize_raw_spec, ?_⟩
  intro stored y req h
  obtain ⟨hret, hlen⟩ := parse_response_retains stored req h
  have hr2 : ({ req with id := y } : DnsRequest).response_data = stored := hret
  have h1 : ({ req with id := y } : DnsRequest).response_data ≠ [] := by
    rw [hr2]
    intro hnil
    rw [hnil] at hlen
    simp at hlen
  have h2 : 2 ≤ ({ req with id := y } : DnsRequest).response_data.length := by
    rw [hr2]
    omega
  obtain ⟨out, hout, hl, h0, hone, htail⟩ :=
    binarize_raw_spec { req with id := y } h1 h2
  rw [hr2] at hl htail
  exact ⟨out, hout, hl, h0, hone, htail⟩

/-- C2 counterexample: a message whose retained buffer is the single byte
`[5]` is non-empty, yet `binarize` panics on the write to `response[1]`
(modelled `none`) instead of returning the buffer with its first two bytes
replaced. -/
theorem binarize_raw_single_byte_panics :
    ({ DnsRequest.new with response_data := [5] } : DnsRequest).response_data
        ≠ [] ∧
      binarize { DnsRequest.new with response_data := [5] } = none := by
  decide

/-- Concrete run of C2: a three-byte retained buffer with id `0xABCD` has its
first two bytes replaced and the third kept. -/
theorem binarize_raw_id_substitution_witness :
    ∃ out,
      binarize { DnsRequest.new with id := 43981, response_data := [1, 2, 3] }
          = some out ∧
        out.length =
          ({ DnsRequest.new with id := 43981, response_data := [1, 2, 3] } :
            DnsRequest).response_data.length ∧
        out.getD 0 0 = ((43981 : Nat) >>> 8) % 256 ∧
        out.getD 1 0 = (43981 : Nat) % 256 ∧
        ∀ i, 2 ≤ i →
          out.getD i 0 =
            ({ DnsRequest.new with id := 43981, response_data := [1, 2, 3] } :
              DnsRequest).response_data.getD i 0 :=
  binarize_raw_id_substitution.1
    { DnsRequest.new with id := 43981, response_data := [1, 2, 3] }
    (by decide) (by decide)

/-! ### C4: header decoding follows the RFC1035 bit layout -/

/-- Bytes of a list of byte values are below 256 positionally. -/
theorem getD_lt_256 (buf : List Nat) (hb : ∀ b ∈ buf, b < 256) (i : Nat)
    (hi : i < buf.length) : buf.getD i 0 < 256 := by
  rw [List.getD_eq_getElem buf 0 hi]
  exact hb _ (List.getElem_mem hi)

/-- C4: for every buffer of at least 12 bytes, `parse_header` extracts the
fields by the fixed RFC1035 layout — id is the big-endian word in bytes 0-1,
qr is bit 7 of byte 2, opcode bits 6-3, aa bit 2, tc bit 1, rd bit 0, ra is
bit 7 of byte 3, z bits 6-4, rcode bits 3-0, and the four counts are the
big-endian words in bytes 4-11 (bit positions written as division and
remainder). -/
theorem parse_header_bit_layout (buf : List Nat) (hlen : 12 ≤ buf.length)
    (hb : ∀ b ∈ buf, b < 256) (m : DnsRequest)
    (h : parse_header buf = some m) :
    m.id = 256 * buf.getD 0 0 + buf.getD 1 0 ∧
    m.qr = buf.getD 2 0 / 128 % 2 ∧
    m.opcode = buf.getD 2 0 / 8 % 16 ∧
    m.aa = buf.getD 2 0 / 4 % 2 ∧
    m.tc = buf.getD 2 0 / 2 % 2 ∧
    m.rd = buf.getD 2 0 % 2 ∧
    m.ra = buf.getD 3 0 / 128 % 2 ∧
    m.z = buf.getD 3 0 / 16 % 8 ∧
    m.rcode = buf.getD 3 0 % 16 ∧
    m.qdcount = 256 * buf.getD 4 0 + buf.getD 5 0 ∧
    m.ancount = 256 * buf.getD 6 0 + buf.getD 7 0 ∧
    m.nscount = 256 * buf.getD 8 0 + buf.getD 9 0 ∧
    m.arcount = 256 * buf.getD 10 0 + buf.getD 11 0 := by
  have hbyte : ∀ i, i < 12 → buf.getD i 0 < 256 := fun i hi =>
    getD_lt_256 buf hb i (by omega)
  rw [parse_header, if_neg (by omega)] at h
  cases h
  have h2 := header_masks (buf.getD 2 0) (hbyte 2 (by omega))
  have h3 := header_masks (buf.getD 3 0) (hbyte 3 (by omega))
  refine ⟨shiftLeft_eight_or _ _ (hbyte 1 (by omega)), h2.1, h2.2.1,
    h2.2.2.1, h2.2.2.2.1, h2.2.2.2.2.1, h3.1, h3.2.2.2.2.2.1,
    h3.2.2.2.2.2.2, shiftLeft_eight_or _ _ (hbyte 5 (by omega)),
    shiftLeft_eight_or _ _ (hbyte 7 (by omega)),
    shiftLeft_eight_or _ _ (hbyte 9 (by omega)),
    shiftLeft_eight_or _ _ (hbyte 11 (by omega))⟩

/-- Concrete run of C4 on the 12-byte header `bufC4`. -/
theorem parse_header_bit_layout_witness :
    reqC4.id = 256 * bufC4.getD 0 0 + bufC4.getD 1 0 ∧
    reqC4.qr = bufC4.getD 2 0 / 128 % 2 ∧
    reqC4.opcode = bufC4.getD 2 0 / 8 % 16 ∧
    reqC4.aa = bufC4.getD 2 0 / 4 % 2 ∧
    reqC4.tc = bufC4.getD 2 0 / 2 % 2 ∧
    reqC4.rd = bufC4.getD 2 0 % 2 ∧
    reqC4.ra = bufC4.getD 3 0 / 128 % 2 ∧
    reqC4.z = bufC4.getD 3 0 / 16 % 8 ∧
    reqC4.rcode = bufC4.getD 3 0 % 16 ∧
    reqC4.qdcount = 256 * bufC4.getD 4 0 + bufC4.getD 5 0 ∧
    reqC4.ancount = 256 * bufC4.getD 6 0 + bufC4.getD 7 0 ∧
    reqC4.nscount = 256 * bufC4.getD 8 0 + bufC4.getD 9 0 ∧
    reqC4.arcount = 256 * bufC4.getD 10 0 + bufC4.getD 11 0 :=
  parse_header_bit_layout bufC4 (by decide) (by decide) reqC4 (by decide)

/-! ### C5 and C10: the question section after the header -/

/-- The question loop exits, returning its accumulator and cursor, exactly
when the cursor leaves the buffer or reads a zero length byte — with any
fuel. -/
theorem readQName_exit (buf : List Nat) (fuel i : Nat) (acc : List Nat)
    (h : ¬(i < buf.length ∧ buf.getD i 0 ≠ 0)) :
    readQName buf fuel i acc = QRes.ok acc i := by
  cases fuel <;> simp only [readQName, if_neg h]

/-- C10: twelve bytes are not enough for `parse` to succeed — every 12-byte
buffer fails, and in general whenever the question-name loop stops at
position `i0` with fewer than 5 bytes (terminator plus qtype and qclass)
remaining, `parse` signals malformed input. -/
theorem parse_fails_without_qtype_qclass :
    (∀ buf : List Nat, buf.length = 12 → parse buf = none) ∧
    (∀ (buf acc : List Nat) (i0 : Nat),
      readQName buf buf.length 12 [] = QRes.ok acc i0 →
      buf.length < i0 + 5 → parse buf = none) := by
  constructor
  · intro buf h12
    unfold parse
    cases hph : parse_header buf with
    | none => rfl
    | some r =>
      have hq := readQName_exit buf buf.length 12 []
        (fun hc => absurd hc.1 (by omega))
      simp only [hq]
      rw [if_pos (by omega)]
  · intro buf acc i0 hq hlt
    unfold parse
    cases hph : parse_header buf with
    | none => rfl
    | some r =>
      simp only [hq]
      rw [if_pos (by omega)]

/-- Concrete run of C10: the all-zero 12-byte buffer is rejected. -/
theorem parse_fails_without_qtype_qclass_witness :
    parse (List.replicate 12 0) = none :=
  parse_fails_without_qtype_qclass.1 (List.replicate 12 0) (by decide)

/-- C5: the question name is read as length-prefixed labels from byte 12 —
each step appends the label's bytes and a separator (byte 46) — and the loop
fails (`QRes.short`, hence `parse` returns `none`) whenever a declared label
length would read past the buffer end; on success the stored name is the
accumulated text with the final separator trimmed, and qtype/qclass are the
big-endian words in the four bytes after the zero terminator. -/
theorem parse_question_labels :
    (∀ (buf : List Nat) (fuel i : Nat) (acc : List Nat),
      i < buf.length → buf.getD i 0 ≠ 0 →
      buf.length < i + 1 + buf.getD i 0 →
      readQName buf (fuel + 1) i acc = QRes.short) ∧
    (∀ buf : List Nat, readQName buf buf.length 12 [] = QRes.short →
      parse buf = none) ∧
    (∀ (buf : List Nat) (fuel i : Nat) (acc : List Nat),
      i < buf.length → buf.getD i 0 ≠ 0 →
      i + 1 + buf.getD i 0 ≤ buf.length →
      readQName buf (fuel + 1) i acc =
        readQName buf fuel (i + 1 + buf.getD i 0)
          (acc ++ (slice buf (i + 1) (i + 1 + buf.getD i 0)).flatMap push_char
            ++ [46])) ∧
    (∀ (buf acc : List Nat) (i0 : Nat) (m : DnsRequest),
      (∀ b ∈ buf, b < 256) →
      readQName buf buf.length 12 [] = QRes.ok acc i0 →
      parse buf = some m →
      m.qname = acc.dropLast ∧
      m.qtype = 256 * buf.getD (i0 + 1) 0 + buf.getD (i0 + 2) 0 ∧
      m.qclass = 256 * buf.getD (i0 + 3) 0 + buf.getD (i0 + 4) 0) := by
  refine ⟨?_, ?_, ?_, ?_⟩
  · intro buf fuel i acc hi hnz hover
    simp only [readQName, if_pos (And.intro hi hnz)]
    rw [if_pos hover]
  · intro buf hshort
    unfold parse
    cases hph : parse_header buf with
    | none => rfl
    | some r => simp only [hshort]
  · intro buf fuel i acc hi hnz hfit
    simp only [readQName, if_pos (And.intro hi hnz)]
    rw [if_neg (by omega)]
  · intro buf acc i0 m hb hq hp
    unfold parse at hp
    cases hph : parse_header buf with
    | none => rw [hph] at hp; exact Option.noConfusion hp
    | some r =>
      rw [hph] at hp
      simp only [hq] at hp
      by_cases hfit : i0 + 1 + 4 > buf.length
      · rw [if_pos hfit] at hp
        exact Option.noConfusion hp
      · rw [if_neg hfit] at hp
        have hm := (Option.some.injEq _ _).mp hp
        subst hm
        refine ⟨rfl, ?_, ?_⟩
        · exact shiftLeft_eight_or _ _ (getD_lt_256 buf hb (i0 + 2) (by omega))
        · exact shiftLeft_eight_or _ _ (getD_lt_256 buf hb (i0 + 4) (by omega))

/-- Concrete run of C5: a label declaring 5 bytes with only one byte left
makes the loop fail and `parse` reject the buffer. -/
theorem parse_question_labels_witness :
    readQName (List.replicate 12 0 ++ [5, 97])
        (List.replicate 12 0 ++ [5, 97]).length 12 [] = QRes.short ∧
      parse (List.replicate 12 0 ++ [5, 97]) = none :=
  ⟨by decide,
   parse_question_labels.2.1 (List.replicate 12 0 ++ [5, 97]) (by decide)⟩

/-! ### C7: record sections consume exactly the declared counts -/

/-- `parseRecords` yields exactly as many records as it was asked for. -/
theorem parseRecords_length (buf : List Nat) (fuel : Nat) :
    ∀ (n off : Nat) (rs : List DnsResourceRecord) (fin : Nat),
      parseRecords buf fuel n off = some (rs, fin) → rs.length = n := by
  intro n
  induction n with
  | zero =>
    intro off rs fin h
    simp only [parseRecords, Option.some.injEq, Prod.mk.injEq] at h
    rw [← h.1]
    rfl
  | succ n ih =>
    intro off rs fin h
    simp only [parseRecords] at h
    split at h
    · split at h
      · rename_i rr off1 hrr rs1 fin1 hrs
        simp only [Option.some.injEq, Prod.mk.injEq] at h
        rw [← h.1, List.length_cons, ih _ _ _ hrs]
      · exact Option.noConfusion h
    · exact Option.noConfusion h

/-- C7: each resource record is read as a (possibly compressed) name, ten
fixed bytes, and exactly `rdlength` rdata bytes, the cursor advancing past
all of it; `parse_response_data` starts at `12 + qname-length + 2 + 4`
(without re-parsing the question) and consumes exactly `ancount`, then
`nscount`, then `arcount` records. -/
theorem parse_response_data_sections :
    (∀ (buf : List Nat) (fuel off : Nat) (rr : DnsResourceRecord)
      (off1 : Nat),
      parse_resource_record buf fuel off = some (rr, off1) →
      ∃ noff, parse_name buf fuel off = NameResult.ok rr.name noff ∧
        rr.rdlength = (buf.getD (noff + 8) 0) <<< 8 ||| buf.getD (noff + 9) 0 ∧
        off1 = noff + 10 + rr.rdlength ∧
        rr.rdata = slice buf (noff + 10) (noff + 10 + rr.rdlength) ∧
        rr.rdata.length = rr.rdlength) ∧
    (∀ (req : DnsRequest) (fuel : Nat) (d : DnsResponseData),
      parse_response_data req fuel = some d →
      ∃ o1 o2 o3,
        parseRecords req.response_data fuel req.ancount
            (12 + req.qname.length + 2 + 4) = some (d.answer_records, o1) ∧
        parseRecords req.response_data fuel req.nscount o1 =
          some (d.authority_records, o2) ∧
        parseRecords req.response_data fuel req.arcount o2 =
          some (d.additional_records, o3) ∧
        d.answer_records.length = req.ancount ∧
        d.authority_records.length = req.nscount ∧
        d.additional_records.length = req.arcount) := by
  constructor
  · intro buf fuel off rr off1 h
    unfold parse_resource_record at h
    cases hn : parse_name buf fuel off with
    | ok name noff =>
      rw [hn] at h
      simp only [] at h
      by_cases h10 : noff + 10 ≤ buf.length
      · rw [if_pos h10] at h
        by_cases hrd : noff + 10 + ((buf.getD (noff + 8) 0) <<< 8 |||
            buf.getD (noff + 9) 0) ≤ buf.length
        · rw [if_pos hrd] at h
          simp only [Option.some.injEq, Prod.mk.injEq] at h
          obtain ⟨hrr, hoff1⟩ := h
          refine ⟨noff, ?_, ?_, ?_, ?_, ?_⟩
          · rw [← hrr]
          · rw [← hrr]
          · rw [← hrr, ← hoff1]
          · rw [← hrr]
          · rw [← hrr]
            simp only [slice, List.length_take, List.length_drop]
            omega
        · rw [if_neg hrd] at h
          exact Option.noConfusion h
      · rw [if_neg h10] at h
        exact Option.noConfusion h
    | oob => rw [hn] at h; exact Option.noConfusion h
    | spin => rw [hn] at h; exact Option.noConfusion h
  · intro req fuel d h
    unfold parse_response_data at h
    cases h1 : parseRecords req.response_data fuel req.ancount
        (12 + req.qname.length + 2 + 4) with
    | none => rw [h1] at h; exact Option.noConfusion h
    | some p1 =>
      obtain ⟨ans, o1⟩ := p1
      rw [h1] at h
      simp only [] at h
      cases h2 : parseRecords req.response_data fuel req.nscount o1 with
      | none => rw [h2] at h; exact Option.noConfusion h
      | some p2 =>
        obtain ⟨auth, o2⟩ := p2
        rw [h2] at h
        simp only [] at h
        cases h3 : parseRecords req.response_data fuel req.arcount o2 with
        | none => rw [h3] at h; exact Option.noConfusion h
        | some p3 =>
          obtain ⟨add, o3⟩ := p3
          rw [h3] at h
          simp only [Option.some.injEq] at h
          subst h
          refine ⟨o1, o2, o3, ?_, ?_, ?_, ?_, ?_, ?_⟩
          · rfl
          · exact h2
          · exact h3
          · exact parseRecords_length _ _ _ _ _ _ h1
          · exact parseRecords_length _ _ _ _ _ _ h2
          · exact parseRecords_length _ _ _ _ _ _ h3

/-- Concrete run of C7 on the retained response `rawTtl10`. -/
theorem parse_response_data_sections_witness :
    parse_response_data reqTtl10 64 = some dataTtl10 ∧
      ∃ o1 o2 o3,
        parseRecords reqTtl10.response_data 64 reqTtl10.ancount
            (12 + reqTtl10.qname.length + 2 + 4) =
          some (dataTtl10.answer_records, o1) ∧
        parseRecords reqTtl10.response_data 64 reqTtl10.nscount o1 =
          some (dataTtl10.authority_records, o2) ∧
        parseRecords reqTtl10.response_data 64 reqTtl10.arcount o2 =
          some (dataTtl10.additional_records, o3) ∧
        dataTtl10.answer_records.length = reqTtl10.ancount ∧
        dataTtl10.authority_records.length = reqTtl10.nscount ∧
        dataTtl10.additional_records.length = reqTtl10.arcount :=
  ⟨by decide, parse_response_data_sections.2 reqTtl10 64 dataTtl10 (by decide)⟩

/-! ### C3: sweeper eviction is the literal ttl = 10 check -/

/-- A sweep check that completed with `e` reports `false` exactly when the
entry decodes and no answer record's ttl field is the literal 10. -/
theorem sweep_entry_expired_false_iff (v : List Nat) (fuel : Nat) (e : Bool)
    (h : sweep_entry_expired v fuel = some e) :
    e = false ↔ ∃ req d, parse_response v = some req ∧
      parse_response_data req fuel = some d ∧
      ∀ r ∈ d.answer_records, r.ttl ≠ 10 := by
  unfold sweep_entry_expired at h
  cases hpr : parse_response v with
  | none => rw [hpr] at h; exact Option.noConfusion h
  | some req =>
    rw [hpr] at h
    simp only [] at h
    cases hpd : parse_response_data req fuel with
    | none => rw [hpd] at h; exact Option.noConfusion h
    | some d =>
      rw [hpd] at h
      simp only [Option.some.injEq] at h
      subst h
      constructor
      · intro hf
        refine ⟨req, d, rfl, hpd, fun r hr => ?_⟩
        have := List.any_eq_false.mp hf r hr
        simpa [beq_iff_eq] using this
      · rintro ⟨req2, d2, hr2, hd2, hall⟩
        have hreq : req2 = req := ((Option.some.injEq _ _).mp hr2).symm
        subst hreq
        have hd : d2 = d := by
          rw [hpd] at hd2
          exact ((Option.some.injEq _ _).mp hd2).symm
        subst hd
        refine List.any_eq_false.mpr fun r hr => ?_
        simpa [beq_iff_eq] using hall r hr

/-- C3: in one sweeper cycle over the cache, an entry is removed if and only
if decoding its stored raw bytes yields an answer record whose ttl field is
the literal 10 — equivalently, it survives exactly when it decodes with every
answer record's ttl different from 10.  The condition mentions no clock or
elapsed time. -/
theorem remove_expired_cache_ttl10 (fuel : Nat) :
    ∀ (cache c : List (List Nat × List Nat)),
      remove_expired_cache fuel cache = some c →
      ∀ k v : List Nat, ((k, v) ∈ c ↔ ((k, v) ∈ cache ∧
        ∃ req d, parse_response v = some req ∧
          parse_response_data req fuel = some d ∧
          ∀ r ∈ d.answer_records, r.ttl ≠ 10)) := by
  intro cache
  induction cache with
  | nil =>
    intro c h k v
    simp only [remove_expired_cache, Option.some.injEq] at h
    subst h
    simp
  | cons hd rest ih =>
    obtain ⟨k1, v1⟩ := hd
    intro c h k v
    simp only [remove_expired_cache] at h
    cases hse : sweep_entry_expired v1 fuel with
    | none => rw [hse] at h; exact Option.noConfusion h
    | some e =>
      rw [hse] at h
      simp only [] at h
      cases hrec : remove_expired_cache fuel rest with
      | none => rw [hrec] at h; exact Option.noConfusion h
      | some r =>
        rw [hrec] at h
        simp only [Option.some.injEq] at h
        subst h
        have hP := sweep_entry_expired_false_iff v1 fuel e hse
        have hIH := ih r hrec k v
        by_cases he : e = true
        · rw [if_pos he, hIH]
          constructor
          · rintro ⟨hm, hp⟩
            exact ⟨List.mem_cons_of_mem _ hm, hp⟩
          · rintro ⟨hm, hp⟩
            rcases List.mem_cons.mp hm with heq | hmr
            · exfalso
              have hv : v = v1 := congrArg Prod.snd heq
              rw [hv] at hp
              rw [hP.mpr hp] at he
              exact Bool.false_ne_true he
            · exact ⟨hmr, hp⟩
        · have he2 : e = false := by
            revert he
            cases e <;> simp
          rw [if_neg he]
          simp only [List.mem_cons, hIH]
          constructor
          · rintro (heq | ⟨hm, hp⟩)
            · have hv : v = v1 := congrArg Prod.snd heq
              refine ⟨Or.inl heq, ?_⟩
              rw [hv]
              exact hP.mp he2
            · exact ⟨Or.inr hm, hp⟩
          · rintro ⟨heq | hm, hp⟩
            · exact Or.inl heq
            · exact Or.inr ⟨hm, hp⟩

/-- Concrete run of C3: the cache entry holding `rawTtl10` (single answer,
ttl 10) is evicted in one cycle. -/
theorem remove_expired_cache_ttl10_witness :
    remove_expired_cache 64 [([97, 98], rawTtl10)] = some [] ∧
      ((([97, 98], rawTtl10) ∈ ([] : List (List Nat × List Nat))) ↔
        ((([97, 98], rawTtl10) ∈ [([97, 98], rawTtl10)]) ∧
          ∃ req d, parse_response rawTtl10 = some req ∧
            parse_response_data req 64 = some d ∧
            ∀ r ∈ d.answer_records, r.ttl ≠ 10)) :=
  ⟨by decide,
   remove_expired_cache_ttl10 64 [([97, 98], rawTtl10)] [] (by decide)
     [97, 98] rawTtl10⟩

/-! ### C6: encode/decode round trip -/

/-- `split` always yields at least one (possibly empty) part. -/
theorem split_labels_ne_nil : ∀ s : List Nat, split_labels s ≠ [] := by
  intro s
  cases s with
  | nil => simp [split_labels]
  | cons b t =>
    simp only [split_labels]
    cases h : split_labels t with
    | nil => simp
    | cons p ps => by_cases hb : b = 46 <;> simp [hb]

/-- Rejoining the split of a byte string with dots restores it. -/
theorem joinDots_split_labels : ∀ s : List Nat, joinDots (split_labels s) = s := by
  intro s
  induction s with
  | nil => rfl
  | cons b t ih =>
    simp only [split_labels]
    cases h : split_labels t with
    | nil => exact absurd h (split_labels_ne_nil t)
    | cons p ps =>
      rw [h] at ih
      by_cases hb : b = 46
      · simp only []
        rw [if_pos hb]
        simp [joinDots, ih, hb]
      · simp only []
        rw [if_neg hb]
        cases ps with
        | nil =>
          simp only [joinDots] at ih ⊢
          rw [ih]
        | cons q qs =>
          simp only [joinDots] at ih ⊢
          rw [List.cons_append, ih]

/-- Appending a dot to each part concatenates to the dot-join plus a final
dot. -/
theorem flatMap_dot (parts : List (List Nat)) (h : parts ≠ []) :
    (parts.flatMap fun p => p ++ [46]) = joinDots parts ++ [46] := by
  induction parts with
  | nil => exact absurd rfl h
  | cons p ps ih =>
    cases ps with
    | nil => simp [joinDots]
    | cons q qs =>
      rw [List.flatMap_cons, ih (by simp)]
      simp only [joinDots]
      simp [List.append_assoc]

/-- Pushing ASCII bytes as chars is the identity on the byte list. -/
theorem push_char_ascii : ∀ p : List Nat, (∀ b ∈ p, b < 128) →
    p.flatMap push_char = p := by
  intro p
  induction p with
  | nil => intro h; rfl
  | cons b t ih =>
    intro h
    rw [List.flatMap_cons, ih (fun x hx => h x (List.mem_cons_of_mem _ hx)),
      push_char, if_pos (h b (List.mem_cons_self _ _))]
    rfl

/-- The wire encoding of a label list is at least one byte per label. -/
theorem parts_length_le_encode (parts : List (List Nat)) :
    parts.length ≤ (parts.flatMap fun p => p.length % 256 :: p).length := by
  induction parts with
  | nil => simp
  | cons p ps ih =>
    simp only [List.flatMap_cons, List.length_append, List.length_cons]
    omega

/-- Splitting a 16-bit word into bytes and recombining restores it. -/
theorem word_roundtrip (x : Nat) (hx : x < 65536) :
    ((x >>> 8) % 256) <<< 8 ||| x % 256 = x := by
  rw [shiftLeft_eight_or _ _ (Nat.mod_lt _ (by norm_num)),
    Nat.shiftRight_eq_div_pow]
  norm_num
  omega

/-- Running the question loop over an encoded label sequence: starting right
after `pre`, with labels that are nonempty, at most 255 bytes long and ASCII,
the loop accumulates each label followed by a dot and stops on the zero
terminator. -/
theorem readQName_spec :
    ∀ (parts : List (List Nat)) (pre post acc : List Nat) (fuel : Nat),
      (∀ p ∈ parts, p ≠ [] ∧ p.length ≤ 255 ∧ ∀ b ∈ p, b < 128) →
      parts.length ≤ fuel →
      readQName
          (pre ++ ((parts.flatMap fun p => p.length % 256 :: p) ++ 0 :: post))
          fuel pre.length acc =
        QRes.ok (acc ++ parts.flatMap fun p => p ++ [46])
          (pre.length + (parts.flatMap fun p => p.length % 256 :: p).length) := by
  intro parts
  induction parts with
  | nil =>
    intro pre post acc fuel hwf hfuel
    simp only [List.flatMap_nil, List.nil_append, List.append_nil,
      List.length_nil, Nat.add_zero]
    refine readQName_exit _ _ _ _ (fun hc => hc.2 ?_)
    rw [List.getD_append_right pre (0 :: post) 0 pre.length le_rfl]
    simp
  | cons p ps ih =>
    intro pre post acc fuel hwf hfuel
    obtain ⟨hpne, hple, hpascii⟩ := hwf p (List.mem_cons_self p ps)
    have hplen : p.length % 256 = p.length := Nat.mod_eq_of_lt (by omega)
    have hppos : 0 < p.length := List.length_pos.mpr hpne
    cases fuel with
    | zero => simp at hfuel
    | succ fuel =>
      have hshape :
          pre ++ (((p :: ps).flatMap fun q => q.length % 256 :: q) ++
              0 :: post) =
            pre ++ p.length ::
              (p ++ ((ps.flatMap fun q => q.length % 256 :: q) ++ 0 :: post)) := by
        simp [List.flatMap_cons, List.append_assoc, hplen]
      rw [hshape]
      have hget :
          (pre ++ p.length ::
              (p ++ ((ps.flatMap fun q => q.length % 256 :: q) ++ 0 :: post))
            ).getD pre.length 0 = p.length := by
        rw [List.getD_append_right pre _ 0 pre.length le_rfl]
        simp
      have hlen :
          (pre ++ p.length ::
              (p ++ ((ps.flatMap fun q => q.length % 256 :: q) ++ 0 :: post))
            ).length =
            pre.length + 1 + p.length +
              ((ps.flatMap fun q => q.length % 256 :: q).length + 1 +
                post.length) := by
        simp only [List.length_append, List.length_cons]
        omega
      have hc1 :
          pre.length <
              (pre ++ p.length ::
                (p ++ ((ps.flatMap fun q => q.length % 256 :: q) ++ 0 :: post))
              ).length ∧
            (pre ++ p.length ::
                (p ++ ((ps.flatMap fun q => q.length % 256 :: q) ++ 0 :: post))
              ).getD pre.length 0 ≠ 0 := by
        constructor
        · rw [hlen]
          omega
        · rw [hget]
          omega
      have hc2 :
          ¬((pre ++ p.length ::
                (p ++ ((ps.flatMap fun q => q.length % 256 :: q) ++ 0 :: post))
              ).length <
            pre.length + 1 +
              (pre ++ p.length ::
                (p ++ ((ps.flatMap fun q => q.length % 256 :: q) ++ 0 :: post))
              ).getD pre.length 0) := by
        rw [hget, hlen]
        omega
      simp only [readQName]
      rw [if_pos hc1, if_neg hc2, hget]
      have hslice :
          slice
            (pre ++ p.length ::
              (p ++ ((ps.flatMap fun q => q.length % 256 :: q) ++ 0 :: post)))
            (pre.length + 1) (pre.length + 1 + p.length) = p := by
        unfold slice
        have hdrop :
            (pre ++ p.length ::
                (p ++ ((ps.flatMap fun q => q.length % 256 :: q) ++ 0 :: post))
              ).drop (pre.length + 1) =
              p ++ ((ps.flatMap fun q => q.length % 256 :: q) ++ 0 :: post) := by
          have hsplit : pre ++ p.length ::
              (p ++ ((ps.flatMap fun q => q.length % 256 :: q) ++ 0 :: post)) =
              (pre ++ [p.length]) ++
                (p ++ ((ps.flatMap fun q => q.length % 256 :: q) ++ 0 :: post)) := by
            simp
          rw [hsplit, show pre.length + 1 = (pre ++ [p.length]).length by
            simp]
          exact List.drop_left _ _
        rw [hdrop, show pre.length + 1 + p.length - (pre.length + 1) = p.length
          by omega, show p.length = (p : List Nat).length from rfl]
        exact List.take_left _ _
      rw [hslice, push_char_ascii p hpascii]
      have happ :
          pre ++ p.length ::
              (p ++ ((ps.flatMap fun q => q.length % 256 :: q) ++ 0 :: post)) =
            (pre ++ p.length :: p) ++
              ((ps.flatMap fun q => q.length % 256 :: q) ++ 0 :: post) := by
        simp [List.append_assoc]
      have hpre2 : pre.length + 1 + p.length =
          (pre ++ p.length :: p).length := by
        simp only [List.length_append, List.length_cons]
        omega
      rw [happ, hpre2,
        ih (pre ++ p.length :: p) post (acc ++ p ++ [46]) fuel
          (fun q hq => hwf q (List.mem_cons_of_mem _ hq))
          (by simp only [List.length_cons] at hfuel; omega)]
      simp only [QRes.ok.injEq]
      constructor
      · simp [List.flatMap_cons, List.append_assoc]
      · simp only [List.flatMap_cons, List.length_append, List.length_cons]
        omega

/-- Index shift across an append. -/
theorem getD_append_add (l r : List Nat) (n : Nat) :
    (l ++ r).getD (l.length + n) 0 = r.getD n 0 := by
  rw [List.getD_append_right l r 0 (l.length + n) (Nat.le_add_right _ _),
    Nat.add_sub_cancel_left]

/-- `parse_header` on a buffer whose first twelve bytes are explicit. -/
theorem parse_header_literal (b0 b1 b2 b3 b4 b5 b6 b7 b8 b9 b10 b11 : Nat)
    (rest : List Nat) :
    parse_header ([b0, b1, b2, b3, b4, b5, b6, b7, b8, b9, b10, b11] ++ rest)
      = some { DnsRequest.new with
          id := b0 <<< 8 ||| b1
          qr := (b2 &&& 128) >>> 7
          opcode := (b2 &&& 120) >>> 3
          aa := (b2 &&& 4) >>> 2
          tc := (b2 &&& 2) >>> 1
          rd := b2 &&& 1
          ra := (b3 &&& 128) >>> 7
          z := (b3 &&& 112) >>> 4
          rcode := b3 &&& 15
          qdcount := b4 <<< 8 ||| b5
          ancount := b6 <<< 8 ||| b7
          nscount := b8 <<< 8 ||| b9
          arcount := b10 <<< 8 ||| b11 } := by
  unfold parse_header
  rw [if_neg (by
    simp only [List.length_append, List.length_cons, List.length_nil]
    omega)]
  rfl

/-- `parse` on a buffer of the exact shape `binarize` emits: twelve header
bytes, the encoded labels, the zero terminator, and four trailing bytes. -/
theorem parse_shape (b0 b1 b2 b3 b4 b5 b6 b7 b8 b9 b10 b11 : Nat)
    (t0 t1 t2 t3 : Nat) (parts : List (List Nat))
    (hwf : ∀ p ∈ parts, p ≠ [] ∧ p.length ≤ 255 ∧ ∀ b ∈ p, b < 128)
    (hne : parts ≠ []) :
    parse ([b0, b1, b2, b3, b4, b5, b6, b7, b8, b9, b10, b11] ++
        ((parts.flatMap fun p => p.length % 256 :: p) ++ 0 :: [t0, t1, t2, t3]))
      = some { DnsRequest.new with
          id := b0 <<< 8 ||| b1
          qr := (b2 &&& 128) >>> 7
          opcode := (b2 &&& 120) >>> 3
          aa := (b2 &&& 4) >>> 2
          tc := (b2 &&& 2) >>> 1
          rd := b2 &&& 1
          ra := (b3 &&& 128) >>> 7
          z := (b3 &&& 112) >>> 4
          rcode := b3 &&& 15
          qdcount := b4 <<< 8 ||| b5
          ancount := b6 <<< 8 ||| b7
          nscount := b8 <<< 8 ||| b9
          arcount := b10 <<< 8 ||| b11
          qname := joinDots parts
          qtype := t0 <<< 8 ||| t1
          qclass := t2 <<< 8 ||| t3 } := by
  have hBlen :
      (([b0, b1, b2, b3, b4, b5, b6, b7, b8, b9, b10, b11] : List Nat) ++
          ((parts.flatMap fun p => p.length % 256 :: p) ++
            0 :: [t0, t1, t2, t3])).length =
        12 + ((parts.flatMap fun p => p.length % 256 :: p).length + 5) := by
    simp only [List.length_append, List.length_cons, List.length_nil]
    try omega
  have hfuel : parts.length ≤
      (([b0, b1, b2, b3, b4, b5, b6, b7, b8, b9, b10, b11] : List Nat) ++
        ((parts.flatMap fun p => p.length % 256 :: p) ++
          0 :: [t0, t1, t2, t3])).length := by
    have := parts_length_le_encode parts
    omega
  have hq := readQName_spec parts [b0, b1, b2, b3, b4, b5, b6, b7, b8, b9,
    b10, b11] [t0, t1, t2, t3] []
    (([b0, b1, b2, b3, b4, b5, b6, b7, b8, b9, b10, b11] : List Nat) ++
      ((parts.flatMap fun p => p.length % 256 :: p) ++
        0 :: [t0, t1, t2, t3])).length hwf hfuel
  rw [show ([b0, b1, b2, b3, b4, b5, b6, b7, b8, b9, b10, b11] :
    List Nat).length = 12 from rfl, List.nil_append] at hq
  unfold parse
  rw [parse_header_literal]
  simp only []
  rw [hq]
  simp only []
  rw [if_neg (by omega)]
  have hg1 :
      (([b0, b1, b2, b3, b4, b5, b6, b7, b8, b9, b10, b11] : List Nat) ++
          ((parts.flatMap fun p => p.length % 256 :: p) ++
            0 :: [t0, t1, t2, t3])).getD
        (12 + (parts.flatMap fun p => p.length % 256 :: p).length + 1) 0 =
      t0 := by
    rw [show 12 + (parts.flatMap fun p => p.length % 256 :: p).length + 1 =
        ([b0, b1, b2, b3, b4, b5, b6, b7, b8, b9, b10, b11] : List Nat).length
          + ((parts.flatMap fun p => p.length % 256 :: p).length + 1) by
      simp only [List.length_cons, List.length_nil]
      omega]
    rw [getD_append_add, getD_append_add]
    rfl
  have hg2 :
      (([b0, b1, b2, b3, b4, b5, b6, b7, b8, b9, b10, b11] : List Nat) ++
          ((parts.flatMap fun p => p.length % 256 :: p) ++
            0 :: [t0, t1, t2, t3])).getD
        (12 + (parts.flatMap fun p => p.length % 256 :: p).length + 2) 0 =
      t1 := by
    rw [show 12 + (parts.flatMap fun p => p.length % 256 :: p).length + 2 =
        ([b0, b1, b2, b3, b4, b5, b6, b7, b8, b9, b10, b11] : List Nat).length
          + ((parts.flatMap fun p => p.length % 256 :: p).length + 2) by
      simp only [List.length_cons, List.length_nil]
      omega]
    rw [getD_append_add, getD_append_add]
    rfl
  have hg3 :
      (([b0, b1, b2, b3, b4, b5, b6, b7, b8, b9, b10, b11] : List Nat) ++
          ((parts.flatMap fun p => p.length % 256 :: p) ++
            0 :: [t0, t1, t2, t3])).getD
        (12 + (parts.flatMap fun p => p.length % 256 :: p).length + 3) 0 =
      t2 := by
    rw [show 12 + (parts.flatMap fun p => p.length % 256 :: p).length + 3 =
        ([b0, b1, b2, b3, b4, b5, b6, b7, b8, b9, b10, b11] : List Nat).length
          + ((parts.flatMap fun p => p.length % 256 :: p).length + 3) by
      simp only [List.length_cons, List.length_nil]
      omega]
    rw [getD_append_add, getD_append_add]
    rfl
  have hg4 :
      (([b0, b1, b2, b3, b4, b5, b6, b7, b8, b9, b10, b11] : List Nat) ++
          ((parts.flatMap fun p => p.length % 256 :: p) ++
            0 :: [t0, t1, t2, t3])).getD
        (12 + (parts.flatMap fun p => p.length % 256 :: p).length + 4) 0 =
      t3 := by
    rw [show 12 + (parts.flatMap fun p => p.length % 256 :: p).length + 4 =
        ([b0, b1, b2, b3, b4, b5, b6, b7, b8, b9, b10, b11] : List Nat).length
          + ((parts.flatMap fun p => p.length % 256 :: p).length + 4) by
      simp only [List.length_cons, List.length_nil]
      omega]
    rw [getD_append_add, getD_append_add]
    rfl
  rw [hg1, hg2, hg3, hg4, flatMap_dot parts hne, List.dropLast_concat]

/-- C6: for every well-formed message without retained raw bytes — flag
fields within their bit widths, 16-bit counts and question codes, and a
question name whose labels are nonempty, at most 255 bytes and ASCII —
decoding the bytes produced by `binarize` with `parse` restores the message
exactly: all thirteen header fields and the question (qname, qtype, qclass)
are identical. -/
theorem parse_binarize_roundtrip (m : DnsRequest)
    (hraw : m.response_data = [])
    (hqr : m.qr ≤ 1) (hop : m.opcode ≤ 15) (haa : m.aa ≤ 1) (htc : m.tc ≤ 1)
    (hrd : m.rd ≤ 1) (hra : m.ra ≤ 1) (hz : m.z ≤ 7) (hrc : m.rcode ≤ 15)
    (hid : m.id < 65536) (hqd : m.qdcount < 65536) (han : m.ancount < 65536)
    (hns : m.nscount < 65536) (har : m.arcount < 65536)
    (hqt : m.qtype < 65536) (hqc : m.qclass < 65536)
    (hname : ∀ p ∈ split_labels m.qname,
      p ≠ [] ∧ p.length ≤ 255 ∧ ∀ b ∈ p, b < 128) :
    ∃ bin, binarize m = some bin ∧ parse bin = some m := by
  refine ⟨[(m.id >>> 8) % 256, m.id % 256,
      flags_byte m.qr m.opcode m.aa m.tc m.rd,
      ((m.ra <<< 7) % 256) ||| ((m.z <<< 4) % 256) ||| m.rcode,
      (m.qdcount >>> 8) % 256, m.qdcount % 256,
      (m.ancount >>> 8) % 256, m.ancount % 256,
      (m.nscount >>> 8) % 256, m.nscount % 256,
      (m.arcount >>> 8) % 256, m.arcount % 256]
    ++ encode_qname m.qname ++ [0]
    ++ [(m.qtype >>> 8) % 256, m.qtype % 256,
        (m.qclass >>> 8) % 256, m.qclass % 256], ?_, ?_⟩
  · simp only [binarize, hraw]
    rw [if_neg (by simp)]
  · have hsh :
        ([(m.id >>> 8) % 256, m.id % 256,
          flags_byte m.qr m.opcode m.aa m.tc m.rd,
          ((m.ra <<< 7) % 256) ||| ((m.z <<< 4) % 256) ||| m.rcode,
          (m.qdcount >>> 8) % 256, m.qdcount % 256,
          (m.ancount >>> 8) % 256, m.ancount % 256,
          (m.nscount >>> 8) % 256, m.nscount % 256,
          (m.arcount >>> 8) % 256, m.arcount % 256]
        ++ encode_qname m.qname ++ [0]
        ++ [(m.qtype >>> 8) % 256, m.qtype % 256,
            (m.qclass >>> 8) % 256, m.qclass % 256]) =
        [(m.id >>> 8) % 256, m.id % 256,
          flags_byte m.qr m.opcode m.aa m.tc m.rd,
          ((m.ra <<< 7) % 256) ||| ((m.z <<< 4) % 256) ||| m.rcode,
          (m.qdcount >>> 8) % 256, m.qdcount % 256,
          (m.ancount >>> 8) % 256, m.ancount % 256,
          (m.nscount >>> 8) % 256, m.nscount % 256,
          (m.arcount >>> 8) % 256, m.arcount % 256] ++
        (((split_labels m.qname).flatMap fun p => p.length % 256 :: p) ++
          0 :: [(m.qtype >>> 8) % 256, m.qtype % 256,
                (m.qclass >>> 8) % 256, m.qclass % 256]) := by
      simp [encode_qname, List.append_assoc]
    rw [hsh, parse_shape _ _ _ _ _ _ _ _ _ _ _ _ _ _ _ _
      (split_labels m.qname) hname (split_labels_ne_nil m.qname)]
    refine congrArg some (DnsRequest.ext ?_ ?_ ?_ ?_ ?_ ?_ ?_ ?_ ?_ ?_ ?_ ?_
      ?_ ?_ ?_ ?_ ?_)
    · show ((m.id >>> 8) % 256) <<< 8 ||| m.id % 256 = m.id
      exact word_roundtrip m.id hid
    · show (flags_byte m.qr m.opcode m.aa m.tc m.rd &&& 128) >>> 7 = m.qr
      rw [flags_byte_eq m.qr (by omega) m.opcode (by omega) m.aa (by omega)
        m.tc (by omega) m.rd (by omega),
        (header_masks (128 * m.qr + 8 * m.opcode + 4 * m.aa + 2 * m.tc + m.rd)
          (by omega)).1]
      omega
    · show (flags_byte m.qr m.opcode m.aa m.tc m.rd &&& 120) >>> 3 = m.opcode
      rw [flags_byte_eq m.qr (by omega) m.opcode (by omega) m.aa (by omega)
        m.tc (by omega) m.rd (by omega),
        (header_masks (128 * m.qr + 8 * m.opcode + 4 * m.aa + 2 * m.tc + m.rd)
          (by omega)).2.1]
      omega
    · show (flags_byte m.qr m.opcode m.aa m.tc m.rd &&& 4) >>> 2 = m.aa
      rw [flags_byte_eq m.qr (by omega) m.opcode (by omega) m.aa (by omega)
        m.tc (by omega) m.rd (by omega),
        (header_masks (128 * m.qr + 8 * m.opcode + 4 * m.aa + 2 * m.tc + m.rd)
          (by omega)).2.2.1]
      omega
    · show (flags_byte m.qr m.opcode m.aa m.tc m.rd &&& 2) >>> 1 = m.tc
      rw [flags_byte_eq m.qr (by omega) m.opcode (by omega) m.aa (by omega)
        m.tc (by omega) m.rd (by omega),
        (header_masks (128 * m.qr + 8 * m.opcode + 4 * m.aa + 2 * m.tc + m.rd)
          (by omega)).2.2.2.1]
      omega
    · show flags_byte m.qr m.opcode m.aa m.tc m.rd &&& 1 = m.rd
      rw [flags_byte_eq m.qr (by omega) m.opcode (by omega) m.aa (by omega)
        m.tc (by omega) m.rd (by omega),
        (header_masks (128 * m.qr + 8 * m.opcode + 4 * m.aa + 2 * m.tc + m.rd)
          (by omega)).2.2.2.2.1]
      omega
    · show ((((m.ra <<< 7) % 256) ||| ((m.z <<< 4) % 256) ||| m.rcode) &&& 128)
          >>> 7 = m.ra
      rw [flags2_byte_eq m.ra (by omega) m.z (by omega) m.rcode (by omega),
        (header_masks (128 * m.ra + 16 * m.z + m.rcode) (by omega)).1]
      omega
    · show ((((m.ra <<< 7) % 256) ||| ((m.z <<< 4) % 256) ||| m.rcode) &&& 112)
          >>> 4 = m.z
      rw [flags2_byte_eq m.ra (by omega) m.z (by omega) m.rcode (by omega),
        (header_masks (128 * m.ra + 16 * m.z + m.rcode)
          (by omega)).2.2.2.2.2.1]
      omega
    · show (((m.ra <<< 7) % 256) ||| ((m.z <<< 4) % 256) ||| m.rcode) &&& 15
          = m.rcode
      rw [flags2_byte_eq m.ra (by omega) m.z (by omega) m.rcode (by omega),
        (header_masks (128 * m.ra + 16 * m.z + m.rcode)
          (by omega)).2.2.2.2.2.2]
      omega
    · show ((m.qdcount >>> 8) % 256) <<< 8 ||| m.qdcount % 256 = m.qdcount
      exact word_roundtrip m.qdcount hqd
    · show ((m.ancount >>> 8) % 256) <<< 8 ||| m.ancount % 256 = m.ancount
      exact word_roundtrip m.ancount han
    · show ((m.nscount >>> 8) % 256) <<< 8 ||| m.nscount % 256 = m.nscount
      exact word_roundtrip m.nscount hns
    · show ((m.arcount >>> 8) % 256) <<< 8 ||| m.arcount % 256 = m.arcount
      exact word_roundtrip m.arcount har
    · show joinDots (split_labels m.qname) = m.qname
      exact joinDots_split_labels m.qname
    · show ((m.qtype >>> 8) % 256) <<< 8 ||| m.qtype % 256 = m.qtype
      exact word_roundtrip m.qtype hqt
    · show ((m.qclass >>> 8) % 256) <<< 8 ||| m.qclass % 256 = m.qclass
      exact word_roundtrip m.qclass hqc
    · show ([] : List Nat) = m.response_data
      exact hraw.symm

/-- Concrete run of C6: the query `a.b`, type A, class IN, id `0x1234`
survives an encode/decode round trip unchanged. -/
theorem parse_binarize_roundtrip_witness :
    ∃ bin, binarize reqC6 = some bin ∧ parse bin = some reqC6 :=
  parse_binarize_roundtrip reqC6 rfl (by decide) (by decide) (by decide)
    (by decide) (by decide) (by decide) (by decide) (by decide) (by decide)
    (by decide) (by decide) (by decide) (by decide) (by decide) (by decide)
    (by decide)

end Rdns
